import Mathlib

/-!
Verification development for MATCLI `pow` (src/pow/pow.cpp).

The program's core is `getOperationResult`, which matches the ECMAScript
pattern

  (?:\({0,1}([\d\^]+)\){0,1}?)\s*\^\s*(?:\({0,1}([\d\^]+)\){0,1}?)

against a raw input (via `std::regex_search`, leftmost match with
ECMAScript backtracking priority), recursively resolves captured groups
that still contain a caret, evaluates the resulting operand pair with
`Pow::getResultString`, and renders an equation string.

The embedding below models the matching of exactly this pattern
(specialised backtracking with the pattern's priority order), the numeric
evaluation chain (`str::stoull`/`str::stoll`, the implicit
integer-to-double conversions, `std::pow` as correctly rounded real
exponentiation, and the double-to-long-long cast, all expressed in exact
integer arithmetic), and the resolver with its error messages.  Styling is
modeled as disabled (an inactive `term::palette` emits no characters), so
equation strings are plain text.
-/

namespace MATCLI

/-- Characters matched by the character class of the pattern: digits and the
caret (the class is written as a backslash-d together with an escaped caret). -/
def inClass (c : Char) : Bool := c.isDigit || c == '^'

/-- ASCII whitespace characters, as matched by the whitespace escape in the
pattern (the claims never involve non-ASCII whitespace). -/
def isSpaceCh (c : Char) : Bool :=
  c == ' ' || c == '\t' || c == '\n' || c == '\x0b' || c == '\x0c' || c == '\r'

/-- Greedy consumption of the whitespace escape.  In this pattern the
star over whitespace is deterministic: whatever follows it can never start
with a whitespace character, so backtracking into it cannot help. -/
def skipSpaces (s : List Char) : List Char := s.dropWhile isSpaceCh

/-- Length of the maximal class-character prefix: the greedy first attempt
of the one-or-more repetition over the class. -/
def classTake (s : List Char) : Nat := (s.takeWhile inClass).length

/-- Backtracking over one operand side of the pattern, after an opening
parenthesis (if any) has been consumed.  `k` is the candidate capture
length, tried greedily from the maximal class prefix downwards.  For each
candidate capture, the lazy optional closing parenthesis first tries to
match nothing and then (when the next character is a closing parenthesis)
tries to consume it; `cont` is the continuation for the remainder of the
pattern.  The first alternative, in this priority order, whose continuation
succeeds wins - exactly ECMAScript backtracking for this pattern. -/
def trySide (t : List Char) (cont : List Char → List Char → Option (List Char × List Char)) :
    Nat → Option (List Char × List Char)
  | 0 => none
  | k + 1 =>
    match cont (t.take (k + 1)) (t.drop (k + 1)) with
    | some v => some v
    | none =>
      match (if (t.drop (k + 1)).head? = some ')' then cont (t.take (k + 1)) (t.drop (k + 1)).tail else none) with
      | some v => some v
      | none => trySide t cont k

/-- One operand side of the pattern.  The greedy optional opening
parenthesis consumes a parenthesis when one is present; the alternative of
not consuming it can never succeed then, because an opening parenthesis is
not a class character, so the capture could not start.  -/
def sideA (s : List Char) (cont : List Char → List Char → Option (List Char × List Char)) :
    Option (List Char × List Char) :=
  if s.head? = some '(' then trySide s.tail cont (classTake s.tail)
  else trySide s cont (classTake s)

/-- The exponent side, which ends the pattern: with no continuation to
satisfy, the greedy capture takes the whole class prefix and the lazy
closing parenthesis matches nothing. -/
def sideB (s : List Char) : Option (List Char) :=
  if s.head? = some '(' then
    (if classTake s.tail = 0 then none else some (s.tail.take (classTake s.tail)))
  else
    (if classTake s = 0 then none else some (s.take (classTake s)))

/-- Continuation after the number side: whitespace, the literal caret,
whitespace, then the exponent side. -/
def contA (cap1 rest : List Char) : Option (List Char × List Char) :=
  let r := skipSpaces rest
  if r.head? = some '^' then
    match sideB (skipSpaces r.tail) with
    | some cap2 => some (cap1, cap2)
    | none => none
  else none

/-- A match of the whole pattern anchored at the start of `s`, returning the
two captured groups. -/
def matchAt (s : List Char) : Option (List Char × List Char) := sideA s contA

/-- `std::regex_search`: the leftmost position with a match wins. -/
def search : List Char → Option (List Char × List Char)
  | [] => none
  | c :: t =>
    match matchAt (c :: t) with
    | some r => some r
    | none => search t

/-! Numeric formatting and parsing (`str::stringify` on integers writes
the standard decimal form; `str::stoull` / `str::stoll` wrap the standard
string-to-integer conversions). -/

/-- A single decimal digit character. -/
def digitChar : Nat → Char
  | 0 => '0' | 1 => '1' | 2 => '2' | 3 => '3' | 4 => '4'
  | 5 => '5' | 6 => '6' | 7 => '7' | 8 => '8' | _ => '9'

/-- Decimal digits of `n`, most significant first; `fuel` bounds the
recursion (any `fuel > n` is enough). -/
def natLitAux : Nat → Nat → List Char
  | 0, _ => []
  | fuel + 1, n => if n < 10 then [digitChar n] else natLitAux fuel (n / 10) ++ [digitChar (n % 10)]

/-- Standard decimal rendering of an unsigned 64-bit value, as produced by
streaming an `unsigned long long` (no leading zeros, `0` for zero). -/
def natLit (n : Nat) : List Char := natLitAux (n + 1) n

/-- Standard decimal rendering of a signed 64-bit value, as produced by
streaming a `long long`. -/
def intLit (i : Int) : List Char :=
  if i < 0 then '-' :: natLit i.natAbs else natLit i.natAbs

/-- Numeric value of a digit character. -/
def digitVal (c : Char) : Nat := c.toNat - 48

/-- Value of a string of decimal digits. -/
def parseDigits (s : List Char) : Nat := s.foldl (fun a c => a * 10 + digitVal c) 0

/-- Maximal digit prefix, as consumed by the standard conversions. -/
def takeDigits (s : List Char) : List Char := s.takeWhile (fun c => c.isDigit)

/-- Error message of a failed conversion with no digits to consume.  (The
concrete text of the standard library's exception is implementation
defined; only its distinctness from the resolver's own messages matters.) -/
def invalidArgMsg : List Char := "conversion: invalid argument".toList

/-- Error message of an out-of-range conversion. -/
def outOfRangeMsg : List Char := "conversion: out of range".toList

/-- Model of `str::stoull` on the operand strings this program produces
(digit strings; leading whitespace and sign handling of the standard
conversion are never exercised because a captured operand consists of class
characters only).  Values of 2^64 and above raise the out-of-range error. -/
def stoullModel (s : List Char) : Except (List Char) Nat :=
  let ds := takeDigits s
  if ds.isEmpty then .error invalidArgMsg
  else if parseDigits ds < 2 ^ 64 then .ok (parseDigits ds)
  else .error outOfRangeMsg

/-- Model of `str::stoll`, with an optional leading minus sign and the
signed 64-bit range check. -/
def stollModel (s : List Char) : Except (List Char) Int :=
  match s with
  | '-' :: t =>
    let ds := takeDigits t
    if ds.isEmpty then .error invalidArgMsg
    else if parseDigits ds ≤ 2 ^ 63 then .ok (-(parseDigits ds : Int))
    else .error outOfRangeMsg
  | _ =>
    let ds := takeDigits s
    if ds.isEmpty then .error invalidArgMsg
    else if parseDigits ds < 2 ^ 63 then .ok (parseDigits ds)
    else .error outOfRangeMsg

/-- The implicit `unsigned long long` to `long long` conversion at the
`std::function` boundary of `Pow::getResult` (modular, two's complement). -/
def toInt64 (n : Nat) : Int := if n < 2 ^ 63 then (n : Int) else (n : Int) - 2 ^ 64

/-- The final `static_cast` to `unsigned long long` (modular). -/
def toUInt64 (i : Int) : Nat := (i % (2 ^ 64 : Int)).toNat

/-- Base-two logarithm by repeated halving, with explicit fuel so that the
kernel can evaluate it (any `fuel ≥ n` is enough). -/
def log2fuel : Nat → Nat → Nat
  | 0, _ => 0
  | fuel + 1, n => if n ≤ 1 then 0 else log2fuel fuel (n / 2) + 1

/-- Base-two logarithm: for `n ≥ 1`, `2 ^ (log2n n) ≤ n < 2 ^ (log2n n + 1)`. -/
def log2n (n : Nat) : Nat := log2fuel n n

/-- Rounding of a non-negative integer to the nearest IEEE-754 binary64
value (53 significant bits, ties to even), expressed exactly on integers.
Values below 2^53 are representable and unchanged. -/
def roundD (n : Nat) : Nat :=
  if n < 2 ^ 53 then n
  else
    let k := log2n n
    let ulp := 2 ^ (k - 52)
    let q := n / ulp
    let r := n % ulp
    if 2 * r < ulp then q * ulp
    else if ulp < 2 * r then (q + 1) * ulp
    else if q % 2 = 0 then q * ulp else (q + 1) * ulp

/-- Rounding of an integer to binary64: sign-magnitude, as IEEE-754. -/
def roundZ (i : Int) : Int :=
  if i < 0 then -(roundD i.natAbs : Int) else (roundD i.natAbs : Int)

/-- Message for the undefined float-to-integer conversion of an
out-of-range (or infinite) `std::pow` result. -/
def ubMsg : List Char := "undefined behavior: float-to-integer conversion out of range".toList

/-- Model of `static_cast<long long>(std::pow(b, e))` for `long long`
arguments `b`, `e`: both are converted to binary64 (rounding), the real
power is computed and rounded to binary64 (`std::pow` taken as correctly
rounded), and the result is truncated toward zero into `long long`.  A
result outside the signed 64-bit range (including the infinite result of
an overflow, and of a zero base with negative exponent) makes the cast
undefined, modeled as an error.  For a negative rounded exponent with
`|b| ≥ 2` the real power lies strictly between -1 and 1 and truncates to
zero, whatever binary64 neighbour it rounds to. -/
def powDoubleLL (b e : Int) : Except (List Char) Int :=
  let bd := roundZ b
  let ed := roundZ e
  if ed = 0 then .ok 1
  else if bd = 0 then (if 0 < ed then .ok 0 else .error ubMsg)
  else if ed < 0 then
    (if bd = 1 then .ok 1
     else if bd = -1 then .ok (if ed % 2 = 0 then 1 else -1)
     else .ok 0)
  else
    if 2 ≤ bd.natAbs ∧ 1024 ≤ ed then .error ubMsg
    else
      let d := roundZ (bd ^ ed.toNat)
      if d < 2 ^ 63 ∧ -(2 ^ 63) ≤ d then .ok d else .error ubMsg

/-! The `Pow` evaluator. -/

/-- The `Pow` struct: an operand pair, held as text. -/
structure Pow where
  number : List Char
  exponent : List Char

/-- `Pow::hasFloatingPoint`: `find` of a dot compares below `size`, i.e.
the string contains a dot. -/
def Pow.hasFloatingPoint (p : Pow) : Bool :=
  p.number.contains '.' || p.exponent.contains '.'

/-- One side of `Pow::hasNegative`: `find_first_of("-") <
find_first_not_of("-")` with `npos` as infinity, i.e. the first character
exists and is a minus sign. -/
def negFindCond (s : List Char) : Bool :=
  match s.findIdx? (fun c => c == '-'), s.findIdx? (fun c => !(c == '-')) with
  | some i, some j => decide (i < j)
  | some _, none => true
  | none, _ => false

/-- `Pow::hasNegative`. -/
def Pow.hasNegative (p : Pow) : Bool :=
  negFindCond p.number || negFindCond p.exponent

/-- Marker for the unmodeled floating-point branch. -/
def floatStubMsg : List Char := "long double branch not modeled".toList

/-- Stands in for the floating-point branch of `Pow::getResultString`
(`str::stold`, `long double` power, stream formatting).  A faithful
executable model would need real-valued exponentiation at non-integer
arguments, which has no computable exact representation; the branch is
unreachable from the resolver, whose operands consist of digits and carets
only and never contain the dot that `hasFloatingPoint` requires. -/
def Pow.getResultStringFloat (_ : Pow) : Except (List Char) (List Char) :=
  .error floatStubMsg

/-- `Pow::getResultString()` (no extra stream formatting): pick the numeric
domain from the operand text, run the conversion and the power chain, and
render the result.  The unsigned branch is
`static_cast<unsigned long long>(static_cast<long long>(std::pow(x, y)))`
where `x`, `y` are the `str::stoull` values squeezed through the
`long long`-valued converter. -/
def Pow.getResultString (p : Pow) : Except (List Char) (List Char) :=
  if p.hasFloatingPoint then p.getResultStringFloat
  else if p.hasNegative then
    match stollModel p.number with
    | .error e => .error e
    | .ok n =>
      match stollModel p.exponent with
      | .error e => .error e
      | .ok e =>
        match powDoubleLL n e with
        | .error m => .error m
        | .ok r => .ok (intLit r)
  else
    match stoullModel p.number with
    | .error e => .error e
    | .ok n =>
      match stoullModel p.exponent with
      | .error e => .error e
      | .ok e =>
        match powDoubleLL (toInt64 n) (toInt64 e) with
        | .error m => .error m
        | .ok r => .ok (natLit (toUInt64 r))

/-! The resolver `getOperationResult`. -/

/-- The single-quote character, used by `make_exception` around the
offending input. -/
def quoteCh : Char := Char.ofNat 39

/-- Message of the no-match failure. -/
def unrecognizedMsg (s : List Char) : List Char :=
  "Unrecognized operation syntax ".toList ++ quoteCh :: (s ++ [quoteCh])

/-- Message of the both-groups-missing failure. -/
def missingBothMsg (s : List Char) : List Char :=
  "Missing operand and exponent in ".toList ++ quoteCh :: (s ++ [quoteCh])

/-- Message of the missing-operand failure. -/
def missingOperandMsg (s : List Char) : List Char :=
  "Missing operand in ".toList ++ quoteCh :: (s ++ [quoteCh])

/-- Message of the missing-exponent failure. -/
def missingExponentMsg (s : List Char) : List Char :=
  "Missing exponent in ".toList ++ quoteCh :: (s ++ [quoteCh])

/-- Message of fuel exhaustion.  The fuel is an artifact of the embedding;
the wrapper `resolve` always supplies enough. -/
def fuelMsg : List Char := "recursion fuel exhausted".toList

/-- Equation rendering: with quiet set only the result is emitted;
otherwise number (parenthesized when it is a nested equation), caret,
exponent (likewise) and equals sign, each separated by single spaces, then
the result.  The palette is inactive, so no escape sequences appear. -/
def renderEq (quiet : Bool) (numEq num expEq exp result : List Char) : List Char :=
  if quiet then result
  else
    (if numEq.isEmpty then num else ('(' :: numEq) ++ [')'])
    ++ [' ', '^', ' ']
    ++ (if expEq.isEmpty then exp else ('(' :: expEq) ++ [')'])
    ++ [' ', '=', ' ']
    ++ result

/-- `getOperationResult`: search for the pattern, check the capture
groups (`matches[k].matched` is modeled as nonemptiness of the capture,
equivalent for this pattern: a participating group of one-or-more class
characters is never empty, an unmatched group reads back as the empty
string), resolve nested sub-expressions, evaluate, render. -/
def getOperationResult (quiet : Bool) : Nat → List Char → Except (List Char) (List Char × List Char)
  | 0, _ => .error fuelMsg
  | fuel + 1, rawInput =>
    match search rawInput with
    | none => .error (unrecognizedMsg rawInput)
    | some (g1, g2) =>
      if g1.isEmpty && g2.isEmpty then .error (missingBothMsg rawInput)
      else if g1.isEmpty then .error (missingOperandMsg rawInput)
      else if g2.isEmpty then .error (missingExponentMsg rawInput)
      else
        match (if g1.contains '^' then getOperationResult quiet fuel g1 else .ok ([], g1)) with
        | .error e => .error e
        | .ok (numEq, num) =>
          match (if g2.contains '^' then getOperationResult quiet fuel g2 else .ok ([], g2)) with
          | .error e => .error e
          | .ok (expEq, exp) =>
            match (Pow.mk num exp).getResultString with
            | .error e => .error e
            | .ok result => .ok (renderEq quiet numEq num expEq exp result, result)

/-- Top-level resolution of one expression text.  The recursion of
`getOperationResult` descends to strictly shorter inputs (each captured
group is shorter than the caret-containing text around it), so a fuel of
the input length plus one never runs out. -/
def resolve (quiet : Bool) (s : List Char) : Except (List Char) (List Char × List Char) :=
  getOperationResult quiet (s.length + 1) s

/-- Decidable equality of resolution outcomes, for evaluating concrete
runs inside proofs. -/
instance {ε α : Type} [DecidableEq ε] [DecidableEq α] : DecidableEq (Except ε α) := fun a b =>
  match a, b with
  | .ok x, .ok y =>
    if h : x = y then isTrue (by rw [h]) else isFalse (fun hh => h (Except.ok.inj hh))
  | .error x, .error y =>
    if h : x = y then isTrue (by rw [h]) else isFalse (fun hh => h (Except.error.inj hh))
  | .ok _, .error _ => isFalse (fun hh => Except.noConfusion hh)
  | .error _, .ok _ => isFalse (fun hh => Except.noConfusion hh)

/-- Recognizes the three capture-group error messages (they and only they
start with the word Missing). -/
def isMissingMsg (m : List Char) : Bool := m.take 8 == "Missing ".toList

/-- Whether an outcome is one of the three capture-group errors. -/
def raisedMissing : Except (List Char) (List Char × List Char) → Bool
  | .error m => isMissingMsg m
  | .ok _ => false

/-! Basic character lemmas. -/

theorem toNat_of_isDigit (c : Char) (h : c.isDigit = true) : 48 ≤ c.toNat ∧ c.toNat ≤ 57 := by
  unfold Char.isDigit at h
  rw [Bool.and_eq_true] at h
  exact ⟨of_decide_eq_true h.1, of_decide_eq_true h.2⟩

theorem char_beq_false {c x : Char} (h : c.toNat ≠ x.toNat) : (c == x) = false := by
  cases hbe : c == x with
  | false => rfl
  | true => exact absurd (congrArg Char.toNat (eq_of_beq hbe)) h

theorem digit_not_space {c : Char} (h : c.isDigit = true) : isSpaceCh c = false := by
  obtain ⟨h1, h2⟩ := toNat_of_isDigit c h
  have e1 : (' ').toNat = 32 := rfl
  have e2 : ('\t').toNat = 9 := rfl
  have e3 : ('\n').toNat = 10 := rfl
  have e4 : ('\x0b').toNat = 11 := rfl
  have e5 : ('\x0c').toNat = 12 := rfl
  have e6 : ('\r').toNat = 13 := rfl
  unfold isSpaceCh
  rw [char_beq_false (x := ' ') (by omega), char_beq_false (x := '\t') (by omega),
    char_beq_false (x := '\n') (by omega), char_beq_false (x := '\x0b') (by omega),
    char_beq_false (x := '\x0c') (by omega), char_beq_false (x := '\r') (by omega)]
  rfl

theorem digit_inClass {c : Char} (h : c.isDigit = true) : inClass c = true := by
  unfold inClass
  rw [h]
  rfl

theorem digit_ne_char {c x : Char} (hc : c.isDigit = true) (hx : x.toNat < 48 ∨ 57 < x.toNat) :
    c ≠ x := by
  obtain ⟨h1, h2⟩ := toNat_of_isDigit c hc
  intro he
  subst he
  omega

/-! List utility lemmas. -/

theorem takeWhile_length_le (p : Char → Bool) (l : List Char) :
    (l.takeWhile p).length ≤ l.length := by
  induction l with
  | nil => simp [List.takeWhile]
  | cons c t ih =>
    rw [List.takeWhile_cons]
    split
    · simpa using ih
    · simp

theorem classTake_le (s : List Char) : classTake s ≤ s.length :=
  takeWhile_length_le inClass s

theorem takeWhile_all {p : Char → Bool} {l : List Char} (h : ∀ c ∈ l, p c = true) :
    l.takeWhile p = l :=
  List.takeWhile_eq_self_iff.mpr h

theorem takeWhile_append_all {p : Char → Bool} {l1 l2 : List Char} (h : ∀ c ∈ l1, p c = true) :
    (l1 ++ l2).takeWhile p = l1 ++ l2.takeWhile p := by
  induction l1 with
  | nil => simp
  | cons c t ih =>
    rw [List.cons_append, List.takeWhile_cons, h c (by simp)]
    rw [ih (fun x hx => h x (by simp [hx]))]
    simp

theorem dropWhile_head_false {p : Char → Bool} {l : List Char}
    (h : ∀ c, l.head? = some c → p c = false) : l.dropWhile p = l := by
  cases l with
  | nil => rfl
  | cons c t =>
    rw [List.dropWhile_cons, h c rfl]
    simp

/-! Decimal rendering round-trip. -/

theorem digitChar_isDigit {d : Nat} (h : d < 10) : (digitChar d).isDigit = true := by
  interval_cases d <;> decide

theorem digitVal_digitChar {d : Nat} (h : d < 10) : digitVal (digitChar d) = d := by
  interval_cases d <;> decide

theorem parseDigits_append_one (xs : List Char) (c : Char) :
    parseDigits (xs ++ [c]) = 10 * parseDigits xs + digitVal c := by
  unfold parseDigits
  rw [List.foldl_append]
  simp [Nat.mul_comm]

theorem natLitAux_spec : ∀ fuel n, n < fuel →
    natLitAux fuel n ≠ [] ∧ (∀ c ∈ natLitAux fuel n, c.isDigit = true) ∧
      parseDigits (natLitAux fuel n) = n := by
  intro fuel
  induction fuel with
  | zero => omega
  | succ f ih =>
    intro n hn
    rw [natLitAux]
    by_cases h10 : n < 10
    · rw [if_pos h10]
      refine ⟨by simp, ?_, ?_⟩
      · intro c hc
        rw [List.mem_singleton] at hc
        subst hc
        exact digitChar_isDigit h10
      · show parseDigits ([] ++ [digitChar n]) = n
        rw [parseDigits_append_one]
        simp [parseDigits, digitVal_digitChar h10]
    · rw [if_neg h10]
      have hdiv : n / 10 < f := by omega
      obtain ⟨hne, hdig, hval⟩ := ih (n / 10) hdiv
      refine ⟨by simp, ?_, ?_⟩
      · intro c hc
        rw [List.mem_append] at hc
        rcases hc with hc | hc
        · exact hdig c hc
        · rw [List.mem_singleton] at hc
          subst hc
          exact digitChar_isDigit (Nat.mod_lt _ (by omega))
      · rw [parseDigits_append_one, hval, digitVal_digitChar (Nat.mod_lt _ (by omega))]
        omega

theorem natLit_ne_nil (n : Nat) : natLit n ≠ [] :=
  (natLitAux_spec (n + 1) n (Nat.lt_succ_self n)).1

theorem natLit_digits (n : Nat) : ∀ c ∈ natLit n, c.isDigit = true :=
  (natLitAux_spec (n + 1) n (Nat.lt_succ_self n)).2.1

theorem parseDigits_natLit (n : Nat) : parseDigits (natLit n) = n :=
  (natLitAux_spec (n + 1) n (Nat.lt_succ_self n)).2.2

/-! Message shapes. -/

theorem ne_unrecognized_of_head {m : List Char} (h : m.head? ≠ some 'U') (s : List Char) :
    m ≠ unrecognizedMsg s := by
  intro he
  apply h
  rw [he]
  rfl

theorem fuelMsg_ne_unrec (s : List Char) : fuelMsg ≠ unrecognizedMsg s :=
  ne_unrecognized_of_head (by decide) s

theorem invalidArgMsg_ne_unrec (s : List Char) : invalidArgMsg ≠ unrecognizedMsg s :=
  ne_unrecognized_of_head (by decide) s

theorem outOfRangeMsg_ne_unrec (s : List Char) : outOfRangeMsg ≠ unrecognizedMsg s :=
  ne_unrecognized_of_head (by decide) s

theorem ubMsg_ne_unrec (s : List Char) : ubMsg ≠ unrecognizedMsg s :=
  ne_unrecognized_of_head (by decide) s

theorem floatStubMsg_ne_unrec (s : List Char) : floatStubMsg ≠ unrecognizedMsg s :=
  ne_unrecognized_of_head (by decide) s

theorem missingBothMsg_ne_unrec (s s2 : List Char) : missingBothMsg s ≠ unrecognizedMsg s2 := by
  intro he
  have h1 : (missingBothMsg s).head? = some 'M' := rfl
  rw [he] at h1
  exact absurd (Option.some.inj h1) (by decide)

theorem missingOperandMsg_ne_unrec (s s2 : List Char) :
    missingOperandMsg s ≠ unrecognizedMsg s2 := by
  intro he
  have h1 : (missingOperandMsg s).head? = some 'M' := rfl
  rw [he] at h1
  exact absurd (Option.some.inj h1) (by decide)

theorem missingExponentMsg_ne_unrec (s s2 : List Char) :
    missingExponentMsg s ≠ unrecognizedMsg s2 := by
  intro he
  have h1 : (missingExponentMsg s).head? = some 'M' := rfl
  rw [he] at h1
  exact absurd (Option.some.inj h1) (by decide)

theorem unrecognizedMsg_inj {a b : List Char} (h : unrecognizedMsg a = unrecognizedMsg b) :
    a = b := by
  unfold unrecognizedMsg at h
  obtain ⟨-, h4⟩ := List.cons.inj (List.append_cancel_left h)
  exact List.append_cancel_right h4

theorem isMissingMsg_unrec (s : List Char) : isMissingMsg (unrecognizedMsg s) = false := rfl

theorem isMissingMsg_fuel : isMissingMsg fuelMsg = false := rfl

theorem isMissingMsg_invalidArg : isMissingMsg invalidArgMsg = false := rfl

theorem isMissingMsg_outOfRange : isMissingMsg outOfRangeMsg = false := rfl

theorem isMissingMsg_ub : isMissingMsg ubMsg = false := rfl

theorem isMissingMsg_floatStub : isMissingMsg floatStubMsg = false := rfl

/-! Which errors the evaluator can produce. -/

theorem stoullModel_err {s e : List Char} (h : stoullModel s = .error e) :
    e = invalidArgMsg ∨ e = outOfRangeMsg := by
  simp only [stoullModel] at h
  split at h
  · exact Or.inl (Except.error.inj h).symm
  · split at h
    · exact absurd h (by simp)
    · exact Or.inr (Except.error.inj h).symm

theorem stollModel_err {s e : List Char} (h : stollModel s = .error e) :
    e = invalidArgMsg ∨ e = outOfRangeMsg := by
  simp only [stollModel] at h
  split at h
  next =>
    split at h
    · exact Or.inl (Except.error.inj h).symm
    · split at h
      · exact absurd h (by simp)
      · exact Or.inr (Except.error.inj h).symm
  next =>
    split at h
    · exact Or.inl (Except.error.inj h).symm
    · split at h
      · exact absurd h (by simp)
      · exact Or.inr (Except.error.inj h).symm

theorem powDoubleLL_err {b e : Int} {m : List Char} (h : powDoubleLL b e = .error m) :
    m = ubMsg := by
  simp only [powDoubleLL] at h
  split at h
  · exact absurd h (by simp)
  · split at h
    · split at h
      · exact absurd h (by simp)
      · exact (Except.error.inj h).symm
    · split at h
      · split at h
        · exact absurd h (by simp)
        · split at h
          · exact absurd h (by simp)
          · exact absurd h (by simp)
      · split at h
        · exact (Except.error.inj h).symm
        · split at h
          · exact absurd h (by simp)
          · exact (Except.error.inj h).symm

theorem getResultString_err {p : Pow} {e : List Char} (h : p.getResultString = .error e) :
    e = floatStubMsg ∨ e = invalidArgMsg ∨ e = outOfRangeMsg ∨ e = ubMsg := by
  unfold Pow.getResultString at h
  split at h
  · exact Or.inl (Except.error.inj h).symm
  · split at h
    · cases h1 : stollModel p.number with
      | error e2 =>
        simp only [h1] at h
        cases stollModel_err h1 with
        | inl h2 => exact Or.inr (Or.inl ((Except.error.inj h).symm.trans h2))
        | inr h2 => exact Or.inr (Or.inr (Or.inl ((Except.error.inj h).symm.trans h2)))
      | ok n =>
        simp only [h1] at h
        cases h2 : stollModel p.exponent with
        | error e2 =>
          simp only [h2] at h
          cases stollModel_err h2 with
          | inl h3 => exact Or.inr (Or.inl ((Except.error.inj h).symm.trans h3))
          | inr h3 => exact Or.inr (Or.inr (Or.inl ((Except.error.inj h).symm.trans h3)))
        | ok ex =>
          simp only [h2] at h
          cases h3 : powDoubleLL n ex with
          | error m2 =>
            simp only [h3] at h
            exact Or.inr (Or.inr (Or.inr ((Except.error.inj h).symm.trans (powDoubleLL_err h3))))
          | ok r =>
            simp only [h3] at h
            exact absurd h (by simp)
    · cases h1 : stoullModel p.number with
      | error e2 =>
        simp only [h1] at h
        cases stoullModel_err h1 with
        | inl h2 => exact Or.inr (Or.inl ((Except.error.inj h).symm.trans h2))
        | inr h2 => exact Or.inr (Or.inr (Or.inl ((Except.error.inj h).symm.trans h2)))
      | ok n =>
        simp only [h1] at h
        cases h2 : stoullModel p.exponent with
        | error e2 =>
          simp only [h2] at h
          cases stoullModel_err h2 with
          | inl h3 => exact Or.inr (Or.inl ((Except.error.inj h).symm.trans h3))
          | inr h3 => exact Or.inr (Or.inr (Or.inl ((Except.error.inj h).symm.trans h3)))
        | ok ex =>
          simp only [h2] at h
          cases h3 : powDoubleLL (toInt64 n) (toInt64 ex) with
          | error m2 =>
            simp only [h3] at h
            exact Or.inr (Or.inr (Or.inr ((Except.error.inj h).symm.trans (powDoubleLL_err h3))))
          | ok r =>
            simp only [h3] at h
            exact absurd h (by simp)

/-! Capture groups of a successful search are never empty. -/
theorem take_ne_nil {j : Nat} {t : List Char} (hj : 1 ≤ j) (hlen : j ≤ t.length) :
    t.take j ≠ [] := by
  intro he
  have h2 : (t.take j).length = min j t.length := List.length_take j t
  rw [he] at h2
  simp at h2
  omega

theorem trySide_some {t : List Char} {cont : List Char → List Char → Option (List Char × List Char)}
    {v : List Char × List Char} :
    ∀ k, trySide t cont k = some v →
      ∃ j, 1 ≤ j ∧ j ≤ k ∧
        (cont (t.take j) (t.drop j) = some v ∨ cont (t.take j) (t.drop j).tail = some v) := by
  intro k
  induction k with
  | zero => intro h; exact absurd h (by simp [trySide])
  | succ k ih =>
    intro h
    rw [trySide] at h
    cases h1 : cont (t.take (k + 1)) (t.drop (k + 1)) with
    | some w =>
      simp only [h1] at h
      exact ⟨k + 1, by omega, le_refl _, Or.inl (h1.trans h)⟩
    | none =>
      simp only [h1] at h
      cases h2 : (if (t.drop (k + 1)).head? = some ')' then cont (t.take (k + 1)) (t.drop (k + 1)).tail else none) with
      | some w =>
        simp only [h2] at h
        split at h2
        · exact ⟨k + 1, by omega, le_refl _, Or.inr (h2.trans h)⟩
        · exact absurd h2 (by simp)
      | none =>
        simp only [h2] at h
        obtain ⟨j, hj1, hj2, hor⟩ := ih h
        exact ⟨j, hj1, by omega, hor⟩

theorem contA_some {cap rest : List Char} {v : List Char × List Char}
    (h : contA cap rest = some v) : ∃ c2, v = (cap, c2) ∧ c2 ≠ [] := by
  simp only [contA] at h
  split at h
  · cases h2 : sideB (skipSpaces (skipSpaces rest).tail) with
    | some c2 =>
      rw [h2] at h
      refine ⟨c2, (Option.some.inj h).symm, ?_⟩
      simp only [sideB] at h2
      split at h2
      · split at h2
        · exact absurd h2 (by simp)
        · next hne =>
          have := Option.some.inj h2
          subst this
          exact take_ne_nil (by omega) (classTake_le _)
      · split at h2
        · exact absurd h2 (by simp)
        · next hne =>
          have := Option.some.inj h2
          subst this
          exact take_ne_nil (by omega) (classTake_le _)
    | none => rw [h2] at h; exact absurd h (by simp)
  · exact absurd h (by simp)



theorem matchAt_some {s : List Char} {g1 g2 : List Char}
    (h : matchAt s = some (g1, g2)) : g1 ≠ [] ∧ g2 ≠ [] := by
  unfold matchAt sideA at h
  split at h
  all_goals {
    obtain ⟨j, hj1, hj2, hor⟩ := trySide_some _ h
    cases hor with
    | inl h2 =>
      obtain ⟨c2, hpair, hc2⟩ := contA_some h2
      obtain ⟨he1, he2⟩ := Prod.mk.inj hpair
      subst he1
      subst he2
      exact ⟨take_ne_nil hj1 (hj2.trans (classTake_le _)), hc2⟩
    | inr h2 =>
      obtain ⟨c2, hpair, hc2⟩ := contA_some h2
      obtain ⟨he1, he2⟩ := Prod.mk.inj hpair
      subst he1
      subst he2
      exact ⟨take_ne_nil hj1 (hj2.trans (classTake_le _)), hc2⟩
  }

theorem search_some {s : List Char} {g1 g2 : List Char}
    (h : search s = some (g1, g2)) : g1 ≠ [] ∧ g2 ≠ [] := by
  induction s with
  | nil => exact absurd h (by simp [search])
  | cons c t ih =>
    rw [search] at h
    cases h1 : matchAt (c :: t) with
    | some w =>
      simp only [h1] at h
      have hw := Option.some.inj h
      subst hw
      exact matchAt_some h1
    | none =>
      simp only [h1] at h
      exact ih h

/-! Facts about the resolver, by induction on the fuel. -/

theorem isEmpty_false_of_ne {l : List Char} (h : l ≠ []) : l.isEmpty = false := by
  cases l with
  | nil => exact absurd rfl h
  | cons a b => rfl

theorem no_missing (quiet : Bool) : ∀ fuel s, raisedMissing (getOperationResult quiet fuel s) = false := by
  intro fuel
  induction fuel with
  | zero => intro s; rfl
  | succ f ih =>
    intro s
    rw [getOperationResult]
    cases hs : search s with
    | none => exact isMissingMsg_unrec s
    | some g =>
      obtain ⟨g1, g2⟩ := g
      obtain ⟨h1, h2⟩ := search_some hs
      simp only [isEmpty_false_of_ne h1, isEmpty_false_of_ne h2, Bool.false_and,
        Bool.false_eq_true, if_false]
      cases hr1 : (if g1.contains '^' then getOperationResult quiet f g1 else .ok ([], g1)) with
      | error e =>
        simp only [hr1]
        split at hr1
        · have hx := ih g1
          rw [hr1] at hx
          exact hx
        · exact absurd hr1 (by simp)
      | ok p1 =>
        obtain ⟨numEq, num⟩ := p1
        simp only [hr1]
        cases hr2 : (if g2.contains '^' then getOperationResult quiet f g2 else .ok ([], g2)) with
        | error e =>
          simp only [hr2]
          split at hr2
          · have hx := ih g2
            rw [hr2] at hx
            exact hx
          · exact absurd hr2 (by simp)
        | ok p2 =>
          obtain ⟨expEq, exp⟩ := p2
          simp only [hr2]
          cases hp : (Pow.mk num exp).getResultString with
          | error e =>
            simp only [hp]
            rcases getResultString_err hp with he | he | he | he <;> rw [he]
            · exact isMissingMsg_floatStub
            · exact isMissingMsg_invalidArg
            · exact isMissingMsg_outOfRange
            · exact isMissingMsg_ub
          | ok r =>
            simp only [hp]
            rfl



theorem unrec_spec (quiet : Bool) : ∀ fuel s m, getOperationResult quiet fuel s = .error m →
    ∀ s2, m = unrecognizedMsg s2 → search s2 = none := by
  intro fuel
  induction fuel with
  | zero =>
    intro s m h s2 hm
    have hf : fuelMsg = m := Except.error.inj h
    rw [← hf] at hm
    exact absurd hm (fuelMsg_ne_unrec s2)
  | succ f ih =>
    intro s m h s2 hm
    rw [getOperationResult] at h
    cases hs : search s with
    | none =>
      simp only [hs] at h
      have hu : unrecognizedMsg s = m := Except.error.inj h
      rw [← hu] at hm
      rw [← unrecognizedMsg_inj hm]
      exact hs
    | some g =>
      obtain ⟨g1, g2⟩ := g
      obtain ⟨h1, h2⟩ := search_some hs
      simp only [hs, isEmpty_false_of_ne h1, isEmpty_false_of_ne h2, Bool.false_and,
        Bool.false_eq_true, if_false] at h
      cases hr1 : (if g1.contains '^' then getOperationResult quiet f g1 else .ok ([], g1)) with
      | error e =>
        simp only [hr1] at h
        have he : e = m := Except.error.inj h
        split at hr1
        · exact ih g1 e hr1 s2 (he.trans hm)
        · exact absurd hr1 (by simp)
      | ok p1 =>
        obtain ⟨numEq, num⟩ := p1
        simp only [hr1] at h
        cases hr2 : (if g2.contains '^' then getOperationResult quiet f g2 else .ok ([], g2)) with
        | error e =>
          simp only [hr2] at h
          have he : e = m := Except.error.inj h
          split at hr2
          · exact ih g2 e hr2 s2 (he.trans hm)
          · exact absurd hr2 (by simp)
        | ok p2 =>
          obtain ⟨expEq, exp⟩ := p2
          simp only [hr2] at h
          cases hp : (Pow.mk num exp).getResultString with
          | error e =>
            simp only [hp] at h
            have he : e = m := Except.error.inj h
            have hm2 := (he.trans hm)
            rcases getResultString_err hp with hx | hx | hx | hx
            · exact absurd (hx ▸ hm2) (floatStubMsg_ne_unrec s2)
            · exact absurd (hx ▸ hm2) (invalidArgMsg_ne_unrec s2)
            · exact absurd (hx ▸ hm2) (outOfRangeMsg_ne_unrec s2)
            · exact absurd (hx ▸ hm2) (ubMsg_ne_unrec s2)
          | ok r =>
            simp only [hp] at h
            exact absurd h (by simp)



theorem quiet_ok_eq (fuel : Nat) (s eqt res : List Char)
    (h : getOperationResult true fuel s = .ok (eqt, res)) : eqt = res := by
  cases fuel with
  | zero => exact absurd h (by simp [getOperationResult])
  | succ f =>
    rw [getOperationResult] at h
    cases hs : search s with
    | none =>
      simp only [hs] at h
      exact absurd h (by simp)
    | some g =>
      obtain ⟨g1, g2⟩ := g
      simp only [hs] at h
      split at h
      · exact absurd h (by simp)
      · split at h
        · exact absurd h (by simp)
        · split at h
          · exact absurd h (by simp)
          · cases hr1 : (if g1.contains '^' then getOperationResult true f g1 else .ok ([], g1)) with
            | error e => rw [hr1] at h; exact absurd h (by simp)
            | ok p1 =>
              obtain ⟨numEq, num⟩ := p1
              rw [hr1] at h
              simp only at h
              cases hr2 : (if g2.contains '^' then getOperationResult true f g2 else .ok ([], g2)) with
              | error e => rw [hr2] at h; exact absurd h (by simp)
              | ok p2 =>
                obtain ⟨expEq, exp⟩ := p2
                rw [hr2] at h
                simp only at h
                cases hp : (Pow.mk num exp).getResultString with
                | error e => rw [hp] at h; exact absurd h (by simp)
                | ok r =>
                  rw [hp] at h
                  simp only at h
                  obtain ⟨he, hr⟩ := Prod.mk.inj (Except.ok.inj h)
                  rw [← he, ← hr]
                  rfl

theorem search_eq_none_iff (s : List Char) :
    search s = none ↔ ∀ i, matchAt (s.drop i) = none := by
  induction s with
  | nil =>
    constructor
    · intro h i
      cases i <;> rfl
    · intro h
      rfl
  | cons c t ih =>
    rw [search]
    cases h1 : matchAt (c :: t) with
    | some w =>
      simp only [h1]
      constructor
      · intro h
        exact absurd h (by simp)
      · intro h
        have h0 := h 0
        rw [List.drop_zero, h1] at h0
        exact absurd h0 (by simp)
    | none =>
      simp only [h1]
      rw [ih]
      constructor
      · intro h i
        cases i with
        | zero =>
          rw [List.drop_zero]
          exact h1
        | succ i => exact h i
      · intro h i
        exact h (i + 1)

/-! All-digit strings never match the pattern (there is no caret). -/

theorem contA_digits_none (cap u : List Char) (hu : ∀ c ∈ u, c.isDigit = true) :
    contA cap u = none := by
  have hss : skipSpaces u = u := by
    apply dropWhile_head_false
    intro c hc
    exact digit_not_space (hu c (List.mem_of_mem_head? hc))
  simp only [contA, hss]
  rw [if_neg]
  intro hh
  have hd := hu _ (List.mem_of_mem_head? hh)
  exact digit_ne_char hd (by right; decide) rfl

theorem trySide_digits_none {t : List Char} (ht : ∀ c ∈ t, c.isDigit = true) :
    ∀ k, trySide t contA k = none := by
  intro k
  induction k with
  | zero => rfl
  | succ k ih =>
    rw [trySide]
    have hdrop : ∀ c ∈ t.drop (k + 1), c.isDigit = true := fun c hc =>
      ht c (List.mem_of_mem_drop hc)
    rw [contA_digits_none _ _ hdrop]
    rw [if_neg]
    · rw [ih]
    · intro hh
      have hd := hdrop _ (List.mem_of_mem_head? hh)
      exact digit_ne_char hd (by left; decide) rfl

theorem matchAt_digits_none {s : List Char} (hs : ∀ c ∈ s, c.isDigit = true) :
    matchAt s = none := by
  unfold matchAt sideA
  rw [if_neg]
  · exact trySide_digits_none hs _
  · intro hh
    have hd := hs _ (List.mem_of_mem_head? hh)
    exact digit_ne_char hd (by left; decide) rfl

theorem search_digits_none {s : List Char} (hs : ∀ c ∈ s, c.isDigit = true) :
    search s = none := by
  induction s with
  | nil => rfl
  | cons c t ih =>
    rw [search, matchAt_digits_none hs]
    exact ih (fun x hx => hs x (by simp [hx]))

/-! Exactness of the double-precision power chain on small integers. -/

theorem log2fuel_le : ∀ fuel n, 1 ≤ n → n ≤ fuel → 2 ^ (log2fuel fuel n) ≤ n := by
  intro fuel
  induction fuel with
  | zero => intro n h1 h2; omega
  | succ f ih =>
    intro n h1 h2
    rw [log2fuel]
    by_cases hn : n ≤ 1
    · rw [if_pos hn]
      simpa using h1
    · rw [if_neg hn]
      have hrec := ih (n / 2) (by omega) (by omega)
      rw [pow_succ]
      omega

theorem log2n_le {n : Nat} (h : 1 ≤ n) : 2 ^ (log2n n) ≤ n :=
  log2fuel_le n n h (le_refl n)

theorem roundD_small {n : Nat} (h : n < 2 ^ 53) : roundD n = n := by
  rw [roundD, if_pos h]

theorem roundD_pos {n : Nat} (h : 1 ≤ n) : 1 ≤ roundD n := by
  rw [roundD]
  by_cases h53 : n < 2 ^ 53
  · rw [if_pos h53]
    exact h
  · rw [if_neg h53]
    have hk : 2 ^ (log2n n) ≤ n := log2n_le h
    have hulp : 2 ^ (log2n n - 52) ≤ n := by
      calc 2 ^ (log2n n - 52) ≤ 2 ^ (log2n n) := Nat.pow_le_pow_right (by omega) (by omega)
        _ ≤ n := hk
    have hup : 0 < 2 ^ (log2n n - 52) := Nat.pos_pow_of_pos _ (by omega)
    have hq : 1 ≤ n / 2 ^ (log2n n - 52) := (Nat.one_le_div_iff hup).mpr hulp
    simp only
    split
    · exact Nat.one_le_iff_ne_zero.mpr (by positivity)
    · split
      · exact Nat.one_le_iff_ne_zero.mpr (by positivity)
      · split
        · exact Nat.one_le_iff_ne_zero.mpr (by positivity)
        · exact Nat.one_le_iff_ne_zero.mpr (by positivity)

theorem roundZ_ofNat_small {n : Nat} (h : n < 2 ^ 53) : roundZ (n : Int) = (n : Int) := by
  rw [roundZ, if_neg (by omega), Int.natAbs_ofNat, roundD_small h]

theorem toInt64_small {n : Nat} (h : n < 2 ^ 63) : toInt64 n = (n : Int) := by
  rw [toInt64, if_pos h]

theorem powDoubleLL_exact {a b : Nat} (hb : b < 2 ^ 63) (hab : a ^ b < 2 ^ 53) :
    powDoubleLL (toInt64 a) (toInt64 b) = .ok ((a ^ b : Nat) : Int) := by
  have hed : roundZ (toInt64 b) = ((roundD b : Nat) : Int) := by
    rw [toInt64_small hb, roundZ, if_neg (by omega), Int.natAbs_ofNat]
  by_cases hb0 : b = 0
  · have hed0 : roundZ (toInt64 b) = 0 := by
      rw [hed, hb0, roundD_small (by norm_num)]
      norm_num
    simp only [powDoubleLL, hed0, if_pos rfl]
    rw [hb0, pow_zero]
    norm_num
  · have hedpos : 1 ≤ roundD b := roundD_pos (by omega)
    by_cases ha0 : a = 0
    · have hbd : roundZ (toInt64 a) = 0 := by
        rw [ha0, toInt64_small (by norm_num), roundZ, if_neg (by omega)]
        norm_num [roundD_small]
      simp only [powDoubleLL, hbd, hed]
      rw [if_neg (by omega), if_pos trivial, if_pos (by omega)]
      rw [ha0, Nat.zero_pow (by omega)]
      norm_num
    · have ha1 : 1 ≤ a := by omega
      have haa : a ≤ a ^ b := by
        calc a = a ^ 1 := (pow_one a).symm
          _ ≤ a ^ b := Nat.pow_le_pow_right ha1 (by omega)
      have ha53 : a < 2 ^ 53 := by omega
      have hbd : roundZ (toInt64 a) = (a : Int) := by
        rw [toInt64_small (by omega)]
        exact roundZ_ofNat_small ha53
      by_cases ha1e : a = 1
      · have hbd1 : roundZ (toInt64 a) = 1 := by rw [hbd, ha1e]; norm_num
        simp only [powDoubleLL, hbd1, hed]
        rw [if_neg (by omega), if_neg (by norm_num), if_neg (by omega)]
        rw [if_neg (by intro hcon; exact absurd hcon.1 (by norm_num)), one_pow]
        have h1 : roundZ 1 = 1 := by
          rw [roundZ, if_neg (by omega)]
          norm_num [roundD_small]
        rw [h1, if_pos (by norm_num)]
        rw [ha1e, one_pow]
        norm_num
      · have ha2 : 2 ≤ a := by omega
        have hb53 : b < 53 := by
          have h2b : 2 ^ b ≤ a ^ b := Nat.pow_le_pow_left ha2 b
          by_contra hcon
          push_neg at hcon
          have : 2 ^ 53 ≤ 2 ^ b := Nat.pow_le_pow_right (by omega) hcon
          omega
        have hedb : roundZ (toInt64 b) = (b : Int) := by
          rw [hed, roundD_small (by omega)]
        simp only [powDoubleLL, hbd, hedb]
        rw [if_neg (by omega), if_neg (by omega), if_neg (by omega)]
        rw [if_neg (by
          intro hcon
          have h2 := hcon.2
          omega)]
        rw [Int.toNat_ofNat]
        have hcast : (a : Int) ^ b = ((a ^ b : Nat) : Int) := by push_cast; ring
        rw [hcast, roundZ_ofNat_small hab]
        rw [if_pos (by constructor <;> omega)]

/-! Evaluation of digit-string operand pairs. -/

theorem digits_not_contains {l : List Char} (h : ∀ c ∈ l, c.isDigit = true) {x : Char}
    (hx : x.toNat < 48 ∨ 57 < x.toNat) : l.contains x = false := by
  cases hb : l.contains x with
  | false => rfl
  | true =>
    have hm : x ∈ l := List.elem_iff.mp hb
    exact absurd rfl (digit_ne_char (h x hm) hx)

theorem digits_negFindCond {l : List Char} (h : ∀ c ∈ l, c.isDigit = true) :
    negFindCond l = false := by
  have hn : l.findIdx? (fun c => c == '-') = none := by
    rw [List.findIdx?_eq_none_iff]
    intro c hc
    exact char_beq_false (by
      obtain ⟨h1, h2⟩ := toNat_of_isDigit c (h c hc)
      have : ('-').toNat = 45 := rfl
      omega)
  simp only [negFindCond, hn]

theorem getResultString_digits {A B : List Char} {a b : Nat}
    (hA : ∀ c ∈ A, c.isDigit = true) (hB : ∀ c ∈ B, c.isDigit = true)
    (hAne : A ≠ []) (hBne : B ≠ [])
    (hva : parseDigits A = a) (hvb : parseDigits B = b)
    (ha : a < 2 ^ 64) (hb : b < 2 ^ 63) (hab : a ^ b < 2 ^ 53) :
    (Pow.mk A B).getResultString = .ok (natLit (a ^ b)) := by
  have hfp : (Pow.mk A B).hasFloatingPoint = false := by
    simp only [Pow.hasFloatingPoint]
    rw [digits_not_contains hA (by left; decide), digits_not_contains hB (by left; decide)]
    rfl
  have hneg : (Pow.mk A B).hasNegative = false := by
    simp only [Pow.hasNegative]
    rw [digits_negFindCond hA, digits_negFindCond hB]
    rfl
  have htdA : takeDigits A = A := takeWhile_all hA
  have htdB : takeDigits B = B := takeWhile_all hB
  have hsA : stoullModel A = .ok a := by
    simp only [stoullModel, htdA, isEmpty_false_of_ne hAne, hva]
    rw [if_neg (by simp), if_pos ha]
  have hsB : stoullModel B = .ok b := by
    simp only [stoullModel, htdB, isEmpty_false_of_ne hBne, hvb]
    rw [if_neg (by simp), if_pos (by omega)]
  have htu : toUInt64 ((a ^ b : Nat) : Int) = a ^ b := by
    rw [toUInt64, Int.emod_eq_of_lt (Int.natCast_nonneg _) (by
      have : a ^ b < 2 ^ 53 := hab
      exact_mod_cast by omega)]
    exact Int.toNat_natCast _
  simp only [Pow.getResultString, hfp, hneg, hsA, hsB, powDoubleLL_exact hb hab, htu]
  rw [if_neg (by simp), if_neg (by simp)]

/-! The leftmost-greedy match on a digits-caret-digits input captures the
two digit groups. -/

theorem classTake_digit_caret_digit {A B : List Char}
    (hA : ∀ c ∈ A, c.isDigit = true) (hB : ∀ c ∈ B, c.isDigit = true) :
    classTake (A ++ '^' :: B) = A.length + 1 + B.length := by
  unfold classTake
  rw [takeWhile_append_all (fun c hc => digit_inClass (hA c hc))]
  rw [List.takeWhile_cons]
  have hc : inClass '^' = true := by decide
  rw [hc]
  simp only [if_pos rfl]
  rw [takeWhile_all (fun c hc => digit_inClass (hB c hc))]
  simp
  omega

theorem drop_digit_suffix {A B : List Char} (hB : ∀ c ∈ B, c.isDigit = true) (d : Nat) :
    ∀ c ∈ (A ++ '^' :: B).drop (A.length + 1 + d), c.isDigit = true := by
  intro c hc
  have : (A ++ '^' :: B).drop (A.length + (1 + d)) = ('^' :: B).drop (1 + d) :=
    List.drop_append (1 + d)
  rw [show A.length + 1 + d = A.length + (1 + d) by omega, this] at hc
  have h2 : ('^' :: B).drop (1 + d) = B.drop d := by
    rw [show 1 + d = d + 1 by omega]
    rfl
  rw [h2] at hc
  exact hB c (List.mem_of_mem_drop hc)

theorem contA_fail_high {A B : List Char} (hB : ∀ c ∈ B, c.isDigit = true) (d : Nat)
    (cap : List Char) :
    contA cap ((A ++ '^' :: B).drop (A.length + 1 + d)) = none :=
  contA_digits_none _ _ (drop_digit_suffix hB d)

theorem trySide_descend {A B : List Char}
    (hB : ∀ c ∈ B, c.isDigit = true) :
    ∀ d, trySide (A ++ '^' :: B) contA (A.length + d) = trySide (A ++ '^' :: B) contA A.length := by
  intro d
  induction d with
  | zero => rfl
  | succ d ih =>
    rw [show A.length + (d + 1) = (A.length + d) + 1 by omega, trySide]
    rw [show (A.length + d) + 1 = A.length + 1 + d by omega]
    rw [contA_fail_high hB d]
    rw [if_neg ?hnp]
    case hnp =>
      intro hh
      have hd := drop_digit_suffix (A := A) hB d _ (List.mem_of_mem_head? hh)
      exact digit_ne_char hd (by left; decide) rfl
    simp only
    exact ih



theorem sideB_digits {B : List Char} (hB : ∀ c ∈ B, c.isDigit = true) (hBne : B ≠ []) :
    sideB B = some B := by
  cases B with
  | nil => exact absurd rfl hBne
  | cons b B2 =>
    unfold sideB
    rw [if_neg (by
      intro hh
      have := Option.some.inj hh
      exact digit_ne_char (hB b (by simp)) (by left; decide) this)]
    have hct : classTake (b :: B2) = (b :: B2).length := by
      unfold classTake
      rw [takeWhile_all (fun c hc => digit_inClass (hB c hc))]
    rw [hct, if_neg (by simp), List.take_length]

theorem contA_boundary {A B : List Char} (hB : ∀ c ∈ B, c.isDigit = true) (hBne : B ≠ []) :
    contA A ('^' :: B) = some (A, B) := by
  have hss : skipSpaces ('^' :: B) = '^' :: B := by
    rw [skipSpaces, List.dropWhile_cons]
    rw [show isSpaceCh '^' = false from rfl]
    simp
  have hssB : skipSpaces B = B :=
    dropWhile_head_false (fun c hc => digit_not_space (hB c (List.mem_of_mem_head? hc)))
  simp only [contA, hss]
  rw [if_pos (show ('^' :: B).head? = some '^' from rfl)]
  simp only [List.tail_cons, hssB, sideB_digits hB hBne]

theorem trySide_at_len {A B : List Char} (hAne : A ≠ [])
    (hB : ∀ c ∈ B, c.isDigit = true) (hBne : B ≠ []) :
    trySide (A ++ '^' :: B) contA A.length = some (A, B) := by
  cases A with
  | nil => exact absurd rfl hAne
  | cons a A2 =>
    show trySide ((a :: A2) ++ '^' :: B) contA (A2.length + 1) = some (a :: A2, B)
    rw [trySide]
    have ht : ((a :: A2) ++ '^' :: B).take (A2.length + 1) = a :: A2 := by
      rw [show A2.length + 1 = (a :: A2).length from rfl]
      exact List.take_left _ _
    have hd : ((a :: A2) ++ '^' :: B).drop (A2.length + 1) = '^' :: B := by
      rw [show A2.length + 1 = (a :: A2).length from rfl]
      exact List.drop_left _ _
    rw [ht, hd, contA_boundary hB hBne]

theorem matchAt_digit_expr {A B : List Char}
    (hA : ∀ c ∈ A, c.isDigit = true) (hB : ∀ c ∈ B, c.isDigit = true)
    (hAne : A ≠ []) (hBne : B ≠ []) :
    matchAt (A ++ '^' :: B) = some (A, B) := by
  cases A with
  | nil => exact absurd rfl hAne
  | cons a A2 =>
    unfold matchAt sideA
    rw [if_neg (by
      intro hh
      have hh2 : some a = some '(' := hh
      exact digit_ne_char (hA a (by simp)) (by left; decide) (Option.some.inj hh2))]
    rw [classTake_digit_caret_digit hA hB]
    rw [show (a :: A2).length + 1 + B.length = (a :: A2).length + (1 + B.length) by omega]
    rw [trySide_descend hB (1 + B.length)]
    exact trySide_at_len hAne hB hBne

theorem search_digit_expr {A B : List Char}
    (hA : ∀ c ∈ A, c.isDigit = true) (hB : ∀ c ∈ B, c.isDigit = true)
    (hAne : A ≠ []) (hBne : B ≠ []) :
    search (A ++ '^' :: B) = some (A, B) := by
  cases A with
  | nil => exact absurd rfl hAne
  | cons a A2 =>
    rw [List.cons_append, search, ← List.cons_append]
    rw [matchAt_digit_expr hA hB hAne hBne]

/-! End-to-end resolution of one digit-caret-digit expression. -/

theorem resolve_digit_expr {A B : List Char} {a b : Nat}
    (hA : ∀ c ∈ A, c.isDigit = true) (hB : ∀ c ∈ B, c.isDigit = true)
    (hAne : A ≠ []) (hBne : B ≠ [])
    (hva : parseDigits A = a) (hvb : parseDigits B = b)
    (ha : a < 2 ^ 64) (hb : b < 2 ^ 63) (hab : a ^ b < 2 ^ 53) (quiet : Bool) :
    resolve quiet (A ++ '^' :: B) =
      .ok (renderEq quiet [] A [] B (natLit (a ^ b)), natLit (a ^ b)) := by
  rw [resolve, getOperationResult]
  rw [search_digit_expr hA hB hAne hBne]
  simp only [isEmpty_false_of_ne hAne, isEmpty_false_of_ne hBne, Bool.false_and,
    Bool.false_eq_true, if_false]
  rw [digits_not_contains hA (by right; decide), digits_not_contains hB (by right; decide)]
  simp only [Bool.false_eq_true, if_false]
  rw [getResultString_digits hA hB hAne hBne hva hvb ha hb hab]

/-! The claims. -/

theorem renderEq_plain (A B r : List Char) :
    renderEq false [] A [] B r = A ++ [' ', '^', ' '] ++ B ++ [' ', '=', ' '] ++ r := rfl

/-- C1: the claim that resolving 2^3^2 groups as 2^(3^2) with equation
text 2 ^ (3 ^ 2) = 512 and result 512 is false: the greedy number group
captures 2^3 first. -/
theorem c1_counterexample :
    ¬ (resolve false "2^3^2".toList =
        Except.ok ("2 ^ (3 ^ 2) = 512".toList, "512".toList)) := by decide

/-- C1 (amended): the pattern's greedy first group captures 2^3, so
2^3^2 is grouped as (2^3)^2: the inner match 2^3 resolves to 8 first, the
equation text is (2 ^ 3 = 8) ^ 2 = 64 (the parenthesized nested equation
carries its own equals sign), and the result text is 64. -/
theorem c1_left_grouped :
    resolve false "2^3^2".toList =
      Except.ok ("(2 ^ 3 = 8) ^ 2 = 64".toList, "64".toList) := by decide

/-- C2: the claim that a leading minus sign selects signed 64-bit
arithmetic is contradicted by the code: a minus sign can never be part of
a captured operand (the operand class has only digits and carets), so
resolving -2^3 silently matches the substring 2^3 and returns 8, not
-8.  The signed branch behind `Pow::hasNegative` is unreachable. -/
theorem c2_minus_sign_dropped :
    resolve false "-2^3".toList = Except.ok ("2 ^ 3 = 8".toList, "8".toList) ∧
      "8".toList ≠ "-8".toList := by decide

/-- C3: the claim that a dot selects the floating-point domain (with
resolve of 2.0^3 giving 8) is contradicted by the code: a dot can never be
part of a captured operand, so 2.0^3 matches the substring 0^3 and yields
0, not 8 or 8.0.  The floating-point branch behind
`Pow::hasFloatingPoint` is unreachable. -/
theorem c3_dot_dropped :
    resolve false "2.0^3".toList = Except.ok ("0 ^ 3 = 0".toList, "0".toList) ∧
      "0".toList ≠ "8".toList ∧ "0".toList ≠ "8.0".toList := by decide

/-- C4: the claim fails for 3^39: the power is computed by the
double-precision `std::pow` and 3^39 is not representable in 53 bits of
mantissa, so the printed result 4052555153018976256 differs from the
exact unsigned 64-bit value 4052555153018976267. -/
theorem c4_counterexample :
    resolve false "3^39".toList =
        Except.ok ("3 ^ 39 = 4052555153018976256".toList,
          "4052555153018976256".toList) ∧
      natLit (3 ^ 39) = "4052555153018976267".toList ∧
      "4052555153018976256".toList ≠ "4052555153018976267".toList := by decide

/-- C4 (amended): for non-negative integers a, b (decimal, no dot, no
sign) with a below 2^64, b below 2^63 and a to the b below 2^53 - the
range in which the double-precision power chain is exact - resolving
a^b yields the exact power, formatted in decimal without leading
zeros. -/
theorem c4_exact_below_2_53 : ∀ a b : Nat, a < 2 ^ 64 → b < 2 ^ 63 → a ^ b < 2 ^ 53 →
    resolve false (natLit a ++ '^' :: natLit b) =
      Except.ok (natLit a ++ [' ', '^', ' '] ++ natLit b ++ [' ', '=', ' '] ++ natLit (a ^ b),
        natLit (a ^ b)) := by
  intro a b ha hb hab
  rw [resolve_digit_expr (natLit_digits a) (natLit_digits b) (natLit_ne_nil a) (natLit_ne_nil b)
    (parseDigits_natLit a) (parseDigits_natLit b) ha hb hab false, renderEq_plain]

/-- C4 witness: the amended theorem applied at 2^10. -/
theorem c4_witness :
    resolve false (natLit 2 ++ '^' :: natLit 10) =
      Except.ok (natLit 2 ++ [' ', '^', ' '] ++ natLit 10 ++ [' ', '=', ' '] ++ natLit (2 ^ 10),
        natLit (2 ^ 10)) :=
  c4_exact_below_2_53 2 10 (by decide) (by decide) (by decide)



/-- C5: the claim that resolving ^5 fails with the missing-operand error is
false: the caret is itself a class character, yet no candidate split of ^5
satisfies the pattern, so the regex search fails outright. -/
theorem c5_counterexample :
    ¬ (resolve false "^5".toList = Except.error (missingOperandMsg "^5".toList)) := by decide

/-- C5 (amended): resolving ^5 fails, but with the unrecognized-operation
error: the pattern never matches with an absent operand, so the
missing-operand branch cannot be reached. -/
theorem c5_unrecognized :
    resolve false "^5".toList = Except.error (unrecognizedMsg "^5".toList) := by decide

/-- C6: the claim that resolving 5^ fails with the missing-exponent error
is false: the regex search fails outright. -/
theorem c6_counterexample :
    ¬ (resolve false "5^".toList = Except.error (missingExponentMsg "5^".toList)) := by decide

/-- C6 (amended): resolving 5^ fails, but with the unrecognized-operation
error: the pattern never matches with an absent exponent, so the
missing-exponent branch cannot be reached. -/
theorem c6_unrecognized :
    resolve false "5^".toList = Except.error (unrecognizedMsg "5^".toList) := by decide

/-- C7: whenever the pattern matches, both capture groups are non-empty
(each is a one-or-more repetition of class characters), so the three
missing-operand-or-exponent error branches are unreachable: no run of the
resolver, whatever the input, quiet flag, or recursion fuel, produces an
error message starting with the word Missing. -/
theorem c7_no_missing_errors :
    (∀ s g1 g2 : List Char, search s = some (g1, g2) → g1 ≠ [] ∧ g2 ≠ []) ∧
      (∀ (quiet : Bool) (fuel : Nat) (s : List Char),
        raisedMissing (getOperationResult quiet fuel s) = false) :=
  ⟨fun _ _ _ h => search_some h, fun quiet fuel s => no_missing quiet fuel s⟩

/-- C7 witness: both parts applied at concrete inputs. -/
theorem c7_witness :
    ("2".toList ≠ [] ∧ "3".toList ≠ []) ∧
      raisedMissing (getOperationResult false 3 "^5".toList) = false :=
  ⟨c7_no_missing_errors.1 "2^3".toList "2".toList "3".toList (by decide),
    c7_no_missing_errors.2 false 3 "^5".toList⟩

/-- C8: matching is substring-based: abc2^3def resolves successfully to
8, ignoring the surrounding garbage; and the unrecognized-operation error
is raised exactly when no suffix of the input has a match of the pattern
at its start, i.e. when no substring matches. -/
theorem c8_substring_matching :
    resolve false "abc2^3def".toList = Except.ok ("2 ^ 3 = 8".toList, "8".toList) ∧
      (∀ s : List Char,
        resolve false s = Except.error (unrecognizedMsg s) ↔ ∀ i, matchAt (s.drop i) = none) := by
  constructor
  · decide
  · intro s
    constructor
    · intro h
      exact (search_eq_none_iff s).mp (unrec_spec false (s.length + 1) s _ h s rfl)
    · intro h
      rw [resolve, getOperationResult, (search_eq_none_iff s).mpr h]

/-- C8 witness: the equivalence applied to the unmatchable input abc. -/
theorem c8_witness : matchAt ("abc".toList.drop 0) = none :=
  (c8_substring_matching.2 "abc".toList).mp (by decide) 0

/-- C9: the claim that re-resolving a resolved result text as a bare
number returns it unchanged is false: resolve on a bare number (no caret
anywhere) finds no match of the pattern and throws. -/
theorem c9_counterexample :
    ¬ (resolve false "8".toList = Except.ok ("8".toList, "8".toList)) := by decide

/-- C9 (amended): a result text is a nonempty all-digit string, and
re-resolving any such string does not return it unchanged: it fails with
the unrecognized-operation error.  The no-op base case exists only inside
the resolver: a captured group without a caret is used as-is, without a
recursive call. -/
theorem c9_bare_number_errors : ∀ s : List Char, s ≠ [] → (∀ c ∈ s, c.isDigit = true) →
    resolve false s = Except.error (unrecognizedMsg s) := by
  intro s hne hd
  rw [resolve, getOperationResult, search_digits_none hd]

/-- C9 witness: the amended theorem applied to the result text 8. -/
theorem c9_witness : resolve false "8".toList = Except.error (unrecognizedMsg "8".toList) :=
  c9_bare_number_errors "8".toList (by decide) (by decide)

/-- C10: in quiet mode (styling disabled), the equation text of every
successful resolution is exactly the result text, whatever the recursion
fuel; in particular this holds for `resolve`. -/
theorem c10_quiet_equation :
    (∀ fuel : Nat, ∀ s eqt res : List Char,
        getOperationResult true fuel s = Except.ok (eqt, res) → eqt = res) ∧
      (∀ s eqt res : List Char, resolve true s = Except.ok (eqt, res) → eqt = res) :=
  ⟨fun fuel s eqt res h => quiet_ok_eq fuel s eqt res h,
    fun s eqt res h => quiet_ok_eq (s.length + 1) s eqt res h⟩

/-- C10 witness: the theorem applied to the quiet resolution of 2^3. -/
theorem c10_witness : "8".toList = "8".toList :=
  c10_quiet_equation.2 "2^3".toList "8".toList "8".toList (by decide)

end MATCLI
